import Mathlib

/-!
Verification of the earnings-tracker ledger recalculation engine.

Shallow embedding of `src/lib/calculations.ts` and the storage layer
(`DailyRecord`, `saveRecord`, `updateRecord`, `deleteRecord`,
`createInitialAdvanceRecord`, `getSettings`, `listRecords`).

Modelling conventions:
- JS numbers are modelled as exact rationals (ℚ).
- Dates are the `YYYY-MM-DD` strings of the source, compared with Mathlib's
  lexicographic linear order on `String`, which agrees with
  `localeCompare` on such ASCII strings.
- `Array.prototype.sort` is stable; a stable sort's output is uniquely
  determined by the comparator and the input order, so Mathlib's stable
  `List.insertionSort` with the same comparator is the same function.
- `localStorage` holds a list of records (`stored`, in stored order, which
  the tie-breaking of the stable sorts depends on) plus an optional
  settings value; operations take the stored list and return the new one.
  A thrown JS `Error` is an `Except.error`; since the source throws before
  any `setItem`, an error leaves the stored list unchanged by construction.
- `id` / `createdAt` are generated from the clock; they are passed in as
  parameters (`newId`, `now`) since no claim depends on their generation.
-/

namespace EarningsTracker

/-- Record shape, from `src/unnamed/part_003` lines 8-22.  The optional
`isInitialAdvance` flag is a `Bool` (absent ≡ `false`). -/
structure DailyRecord where
  id : Nat
  date : String
  basePay : ℚ
  bookings : ℚ
  bookingPay : ℚ
  inquiryPay : ℚ
  totalEarnings : ℚ
  advanceUsed : ℚ
  remaining : ℚ
  notes : String
  action : String
  createdAt : String
  isInitialAdvance : Bool
  deriving Repr, DecidableEq, Inhabited

/-- Settings shape, from `src/unnamed/part_003` lines 24-28. -/
structure EarningSettings where
  basePay : ℚ
  perBooking : ℚ
  advanceBalance : ℚ
  deriving Repr, DecidableEq, Inhabited

/-- Default settings, from `src/unnamed/part_003` lines 35-39. -/
def DEFAULT_SETTINGS : EarningSettings :=
  { basePay := 200, perBooking := 50, advanceBalance := 0 }

/-- Stored settings value: `none` = nothing stored under the settings key;
`some none` = a stored string that fails `JSON.parse`; `some (some s)` = a
parseable stored value. -/
def getSettings (stored : Option (Option EarningSettings)) : EarningSettings :=
  match stored with
  | none => DEFAULT_SETTINGS
  | some none => DEFAULT_SETTINGS
  | some (some s) => s

/-- From `src/lib/calculations.ts` lines 11-14. -/
def calculateBookingPay (bookings perBooking : ℚ) : ℚ :=
  if bookings < 0 then 0 else bookings * perBooking

/-- From `src/lib/calculations.ts` lines 23-29. -/
def calculateTotalEarnings (basePay bookingPay inquiryPay : ℚ) : ℚ :=
  basePay + bookingPay + inquiryPay

/-- From `src/lib/calculations.ts` lines 38-51. -/
def calculateRemaining (prevRemaining advanceUsedToday totalEarnedToday : ℚ) : ℚ :=
  if advanceUsedToday = 0 then prevRemaining - totalEarnedToday
  else prevRemaining - advanceUsedToday + totalEarnedToday

/-- Comparator of the ascending date sorts (`a.date.localeCompare(b.date)`). -/
def byDateAsc (a b : DailyRecord) : Prop := a.date ≤ b.date

/-- Comparator of the descending date sorts (`b.date.localeCompare(a.date)`). -/
def byDateDesc (a b : DailyRecord) : Prop := b.date ≤ a.date

instance : DecidableRel byDateAsc := fun a b =>
  inferInstanceAs (Decidable (a.date ≤ b.date))

instance : DecidableRel byDateDesc := fun a b =>
  inferInstanceAs (Decidable (b.date ≤ a.date))

instance : IsTotal DailyRecord byDateAsc :=
  ⟨fun a b => le_total a.date b.date⟩

instance : IsTrans DailyRecord byDateAsc :=
  ⟨fun _ _ _ h₁ h₂ => le_trans h₁ h₂⟩

instance : IsTotal DailyRecord byDateDesc :=
  ⟨fun a b => le_total b.date a.date⟩

instance : IsTrans DailyRecord byDateDesc :=
  ⟨fun _ _ _ h₁ h₂ => le_trans h₂ h₁⟩

/-- `listRecords`, `src/unnamed/part_003` lines 94-112: return all records
sorted by date descending (stable). -/
def listRecords (stored : List DailyRecord) : List DailyRecord :=
  stored.insertionSort byDateDesc

/-- `getRecord`, `src/unnamed/part_003` lines 117-120. -/
def getRecord (id : Nat) (stored : List DailyRecord) : Option DailyRecord :=
  (listRecords stored).find? (fun r => r.id == id)

/-- `getInitialAdvanceRecord`, `src/unnamed/part_003` lines 133-136. -/
def getInitialAdvanceRecord (stored : List DailyRecord) : Option DailyRecord :=
  (listRecords stored).find? (·.isInitialAdvance)

/-- Error taxonomy: `Error('Record not found')` and
`Error('An initial advance record already exists')` in the source. -/
inductive StorageError where
  | recordNotFound
  | anchorAlreadyExists
  deriving Repr, DecidableEq

/-- Argument of `saveRecord` (`Omit<DailyRecord, 'id' | 'createdAt'>`).
Its `remaining` field is present in the TS type but overwritten by the
computed value before the record is appended. -/
structure DraftRecord where
  date : String
  basePay : ℚ
  bookings : ℚ
  bookingPay : ℚ
  inquiryPay : ℚ
  totalEarnings : ℚ
  advanceUsed : ℚ
  remaining : ℚ
  notes : String
  action : String
  isInitialAdvance : Bool
  deriving Repr, DecidableEq, Inhabited

/-- Spread of a draft into a full record with the freshly computed
`remaining` (`{ ...record, id, createdAt, remaining }`). -/
def DraftRecord.toRecord (d : DraftRecord) (id : Nat) (createdAt : String)
    (remaining : ℚ) : DailyRecord :=
  { id := id, date := d.date, basePay := d.basePay, bookings := d.bookings,
    bookingPay := d.bookingPay, inquiryPay := d.inquiryPay,
    totalEarnings := d.totalEarnings, advanceUsed := d.advanceUsed,
    remaining := remaining, notes := d.notes, action := d.action,
    createdAt := createdAt, isInitialAdvance := d.isInitialAdvance }

/-- `saveRecord`, `src/unnamed/part_003` lines 141-199.  Resolves the new
record's starting balance from the current set, stamps `remaining`, appends
to the date-descending listing and persists that array. -/
def saveRecord (settings : EarningSettings) (draft : DraftRecord) (newId : Nat)
    (now : String) (stored : List DailyRecord) : DailyRecord × List DailyRecord :=
  let records := listRecords stored
  let initialAdvance := getInitialAdvanceRecord stored
  let prevRemaining : ℚ :=
    match initialAdvance with
    | some ia =>
      let previousRecords := records.filter
        (fun r => decide (r.date < draft.date) && !r.isInitialAdvance)
      match (previousRecords.insertionSort byDateDesc).head? with
      | some mostRecent => mostRecent.remaining
      | none => ia.remaining
    | none =>
      let previousRecords := records.filter (fun r => decide (r.date < draft.date))
      match (previousRecords.insertionSort byDateDesc).head? with
      | some mostRecent => mostRecent.remaining
      | none => settings.advanceBalance
  let newRecord := draft.toRecord newId now
    (calculateRemaining prevRemaining draft.advanceUsed draft.totalEarnings)
  (newRecord, records ++ [newRecord])

/-- `Partial<Omit<DailyRecord, 'id' | 'createdAt'>>`: every patchable field
is optional; `none` = key absent (`undefined`). -/
structure RecordPatch where
  date : Option String := none
  basePay : Option ℚ := none
  bookings : Option ℚ := none
  bookingPay : Option ℚ := none
  inquiryPay : Option ℚ := none
  totalEarnings : Option ℚ := none
  advanceUsed : Option ℚ := none
  remaining : Option ℚ := none
  notes : Option String := none
  action : Option String := none
  isInitialAdvance : Option Bool := none
  deriving Repr, DecidableEq, Inhabited

/-- Object spread `{ ...records[index], ...patch }`. -/
def applyPatch (r : DailyRecord) (p : RecordPatch) : DailyRecord :=
  { r with
    date := p.date.getD r.date
    basePay := p.basePay.getD r.basePay
    bookings := p.bookings.getD r.bookings
    bookingPay := p.bookingPay.getD r.bookingPay
    inquiryPay := p.inquiryPay.getD r.inquiryPay
    totalEarnings := p.totalEarnings.getD r.totalEarnings
    advanceUsed := p.advanceUsed.getD r.advanceUsed
    remaining := p.remaining.getD r.remaining
    notes := p.notes.getD r.notes
    action := p.action.getD r.action
    isInitialAdvance := p.isInitialAdvance.getD r.isInitialAdvance }

/-- Starting balance taken from the effective initial-advance record, else
from settings (`initialAdvance ? initialAdvance.remaining :
settings.advanceBalance`, the shared shape of lines 240-254, 263-268,
318-332 and 341-346 of `src/unnamed/part_003`). -/
def iaStart (settings : EarningSettings) (ia : Option DailyRecord) : ℚ :=
  match ia with
  | some a => a.remaining
  | none => settings.advanceBalance

/-- Value assigned to `sortedRecords[i].remaining` by one iteration of the
cascade loops of `updateRecord` (lines 232-276) and `deleteRecord` (lines
310-354) of `src/unnamed/part_003`, for a non-anchor record `r` at position
`done.length` of the date-ascending array, given the already-recomputed
prefix `done`.  The first branch is `i == 0 || (initialAdvance && date <=
initialAdvance.date)`; the second scans `sortedRecords.slice(0, i)` (the
prefix) for the most recent previous record.  `ia` is the effective
initial-advance record: for `deleteRecord` of the anchor itself the source
guards every use with `&& !isDeletedInitialAdvance`, which is the same as
passing `none`. -/
def cascadeStepValue (settings : EarningSettings) (ia : Option DailyRecord)
    (done : List DailyRecord) (r : DailyRecord) : ℚ :=
  if done.isEmpty ||
      (match ia with | some a => decide (r.date ≤ a.date) | none => false) then
    calculateRemaining (iaStart settings ia) r.advanceUsed r.totalEarnings
  else
    let prevRecords := done.filter
      (fun p => !p.isInitialAdvance || decide (p.date ≤ r.date))
    let prevRemaining :=
      match prevRecords.getLast? with
      | some mostRecent => mostRecent.remaining
      | none => iaStart settings ia
    calculateRemaining prevRemaining r.advanceUsed r.totalEarnings

/-- One iteration of the cascade loops: the anchor record is skipped
(`continue`), every other record gets the recomputed `remaining`. -/
def cascadeStep (settings : EarningSettings) (ia : Option DailyRecord)
    (done : List DailyRecord) (r : DailyRecord) : DailyRecord :=
  if r.isInitialAdvance then r
  else { r with remaining := cascadeStepValue settings ia done r }

/-- The cascade loop proper: walk the date-ascending array, copying the
first `startIdx` entries unchanged (the loop of the source starts at
`recordIndex`) and recomputing every later entry in place. -/
def cascadeLoop (settings : EarningSettings) (ia : Option DailyRecord)
    (startIdx : Nat) : List DailyRecord → List DailyRecord → List DailyRecord
  | done, [] => done
  | done, r :: rest =>
    if done.length < startIdx then
      cascadeLoop settings ia startIdx (done ++ [r]) rest
    else
      cascadeLoop settings ia startIdx (done ++ [cascadeStep settings ia done r]) rest

/-- `updateRecord`, `src/unnamed/part_003` lines 204-290.  Returns the new
stored array (the source also returns the updated record; no claim uses
that return value).  A financial patch (`advanceUsed`, `totalEarnings` or
`date` key present) triggers the forward cascade from the record's position
in the date-ascending order; otherwise the merged record is stored with no
recomputation. -/
def updateRecord (settings : EarningSettings) (id : Nat) (patch : RecordPatch)
    (stored : List DailyRecord) : Except StorageError (List DailyRecord) :=
  let records := listRecords stored
  match records.findIdx? (fun r => r.id == id) with
  | none => .error .recordNotFound
  | some index =>
    let updated := applyPatch (records.getD index default) patch
    if patch.advanceUsed.isSome || patch.totalEarnings.isSome || patch.date.isSome then
      let sortedRecords := (records.set index updated).insertionSort byDateAsc
      let initialAdvance := getInitialAdvanceRecord stored
      let recordIndex := sortedRecords.findIdx (fun r => r.id == id)
      .ok (cascadeLoop settings initialAdvance recordIndex [] sortedRecords)
    else
      .ok (records.set index updated)

/-- `deleteRecord`, `src/unnamed/part_003` lines 295-362.  Note: the source
has no not-found check; an absent `id` filters nothing out and the cascade
still runs over the whole set.  The `Except` return mirrors the `async`
signature (the local-mode body never throws). -/
def deleteRecord (settings : EarningSettings) (id : Nat)
    (stored : List DailyRecord) : Except StorageError (List DailyRecord) :=
  let records := listRecords stored
  let filtered := records.filter (fun r => !(r.id == id))
  let sortedFiltered := filtered.insertionSort byDateAsc
  let initialAdvance := getInitialAdvanceRecord stored
  let deletedRecord := records.find? (fun r => r.id == id)
  let isDeletedInitialAdvance := (deletedRecord.map (·.isInitialAdvance)).getD false
  let effectiveIa := if isDeletedInitialAdvance then none else initialAdvance
  .ok (cascadeLoop settings effectiveIa 0 [] sortedFiltered)

/-- `createInitialAdvanceRecord`, `src/unnamed/part_003` lines 375-413. -/
def createInitialAdvanceRecord (advanceAmount : ℚ) (date : String) (newId : Nat)
    (now : String) (stored : List DailyRecord) :
    Except StorageError (DailyRecord × List DailyRecord) :=
  let records := listRecords stored
  if records.any (·.isInitialAdvance) then .error .anchorAlreadyExists
  else
    let initialRecord : DailyRecord :=
      { id := newId, date := date, basePay := 0, bookings := 0, bookingPay := 0,
        inquiryPay := 0, totalEarnings := 0, advanceUsed := 0,
        remaining := advanceAmount, notes := "Initial Advance Amount",
        action := "Initial Advance", createdAt := now, isInitialAdvance := true }
    .ok (initialRecord, records ++ [initialRecord])

/-- Full from-scratch recompute of `remaining` over a record set: one pass
of the source's cascade (`cascadeLoop` from index 0) over the
date-ascending order, starting balances resolved against the anchor found
in the set. -/
def recalcAll (settings : EarningSettings) (l : List DailyRecord) :
    List DailyRecord :=
  cascadeLoop settings (getInitialAdvanceRecord l) 0 [] (l.insertionSort byDateAsc)

instance {e a : Type} [DecidableEq e] [DecidableEq a] : DecidableEq (Except e a) :=
  fun x y =>
    match x, y with
    | .ok v, .ok w =>
      if h : v = w then isTrue (by rw [h])
      else isFalse (by intro hc; cases hc; exact h rfl)
    | .error v, .error w =>
      if h : v = w then isTrue (by rw [h])
      else isFalse (by intro hc; cases hc; exact h rfl)
    | .ok _, .error _ => isFalse (by intro hc; cases hc)
    | .error _, .ok _ => isFalse (by intro hc; cases hc)

/-- A record with its derived `remaining` field cleared, used to state
which fields an operation leaves untouched. -/
def eraseRemaining (r : DailyRecord) : DailyRecord := { r with remaining := 0 }

/-- First element attaining the maximal date (earlier elements win ties). -/
def firstMaxDate (l : List DailyRecord) : Option DailyRecord :=
  l.foldl
    (fun acc r =>
      match acc with
      | none => some r
      | some m => if m.date < r.date then some r else some m)
    none

/-- Last element attaining the maximal date (later elements win ties). -/
def lastMaxDate (l : List DailyRecord) : Option DailyRecord :=
  l.foldl
    (fun acc r =>
      match acc with
      | none => some r
      | some m => if m.date ≤ r.date then some r else some m)
    none

/-- Starting-balance resolution that `saveRecord` actually implements,
stated independently of the sorting in its body: with an anchor present,
the previous balance is the `remaining` of the strictly earlier non-anchor
record with the greatest date (first one in the date-descending listing on
ties), and only if there is none the anchor's `remaining`; with no anchor,
the greatest-date strictly earlier record, else `Settings.advanceBalance`. -/
def codeResolveStart (settings : EarningSettings) (stored : List DailyRecord)
    (d : String) : ℚ :=
  let records := listRecords stored
  match records.find? (·.isInitialAdvance) with
  | some ia =>
    match firstMaxDate (records.filter
        (fun r => decide (r.date < d) && !r.isInitialAdvance)) with
    | some m => m.remaining
    | none => ia.remaining
  | none =>
    match firstMaxDate (records.filter (fun r => decide (r.date < d))) with
    | some m => m.remaining
    | none => settings.advanceBalance

/-- Starting-balance resolution following the specification's own wording
(spec section 4.2, quoted in claim C3): rule 1 uses the anchor's
`remaining` when the anchor exists and the target date is on/before the
anchor's date or no earlier non-anchor record exists; rule 2 takes the
most recent non-anchor record strictly before the target date, ties going
to the most recently inserted; rule 3 falls back to
`Settings.advanceBalance`.  Kept separate from the source-derived
`saveRecord` so the two can be compared. -/
def specResolveStart (settings : EarningSettings) (stored : List DailyRecord)
    (d : String) : ℚ :=
  let records := listRecords stored
  match records.find? (·.isInitialAdvance) with
  | some ia =>
    let earlier := records.filter
      (fun r => decide (r.date < d) && !r.isInitialAdvance)
    if decide (d ≤ ia.date) || earlier.isEmpty then ia.remaining
    else
      match lastMaxDate earlier with
      | some m => m.remaining
      | none => ia.remaining
  | none =>
    let earlier := records.filter (fun r => decide (r.date < d))
    match lastMaxDate earlier with
    | some m => m.remaining
    | none => settings.advanceBalance

/-- One-pass from-scratch recompute following the specification's wording
(spec sections 4.2 and 8, quoted in claim C1): walk the records in
date-ascending order; the anchor keeps its `remaining`; every other record
gets `balanceDelta` of the resolved starting balance, resolved against the
already-recomputed prefix `done`. -/
def specRecomputePass (settings : EarningSettings) (ia : Option DailyRecord) :
    List DailyRecord → List DailyRecord → List DailyRecord
  | _, [] => []
  | done, r :: rest =>
    if r.isInitialAdvance then
      r :: specRecomputePass settings ia (done ++ [r]) rest
    else
      let earlier := done.filter
        (fun p => decide (p.date < r.date) && !p.isInitialAdvance)
      let start :=
        match ia with
        | some a => if decide (r.date ≤ a.date) || earlier.isEmpty then a.remaining
                    else ((lastMaxDate earlier).map (·.remaining)).getD a.remaining
        | none =>
          match lastMaxDate earlier with
          | some m => m.remaining
          | none => settings.advanceBalance
      let r' := { r with remaining :=
        calculateRemaining start r.advanceUsed r.totalEarnings }
      r' :: specRecomputePass settings ia (done ++ [r']) rest

/-- From-scratch recompute of a whole record set per the specification's
wording: sort date-ascending, then apply `specRecomputePass` with the
anchor found in the set. -/
def specRecompute (settings : EarningSettings) (l : List DailyRecord) :
    List DailyRecord :=
  specRecomputePass settings ((l.insertionSort byDateAsc).find? (·.isInitialAdvance))
    [] (l.insertionSort byDateAsc)

/-- Chain of records recomputed forward from a starting balance, each
record's `remaining` computed from its immediate predecessor's new value. -/
def chainFrom (start : ℚ) : List DailyRecord → List DailyRecord
  | [] => []
  | r :: rest =>
    let r' := { r with remaining :=
      calculateRemaining start r.advanceUsed r.totalEarnings }
    r' :: chainFrom r'.remaining rest

/-- Suffix produced by the cascade loop beyond its processed prefix
(`cascadeLoop settings ia 0 done rest = done ++ cascadeGo settings ia done rest`). -/
def cascadeGo (settings : EarningSettings) (ia : Option DailyRecord) :
    List DailyRecord → List DailyRecord → List DailyRecord
  | _, [] => []
  | done, r :: rest =>
    let r' := cascadeStep settings ia done r
    r' :: cascadeGo settings ia (done ++ [r']) rest

/-- Remaining balance at the end of a processed prefix: the last record's
`remaining`, or `Settings.advanceBalance` for an empty prefix. -/
def startOf (settings : EarningSettings) (done : List DailyRecord) : ℚ :=
  match done.getLast? with
  | some m => m.remaining
  | none => settings.advanceBalance

/-! Concrete stores and drafts used by the scenario theorems. -/

/-- Anchor of the claim C2 scenario: dated 2024-01-01, amount 1000. -/
def c2Anchor : DailyRecord :=
  { id := 1, date := "2024-01-01", basePay := 0, bookings := 0, bookingPay := 0,
    inquiryPay := 0, totalEarnings := 0, advanceUsed := 0, remaining := 1000,
    notes := "Initial Advance Amount", action := "Initial Advance",
    createdAt := "t0", isInitialAdvance := true }

/-- Record A of the claim C2 scenario: 2024-01-02, earnings 200, remaining 800. -/
def c2A : DailyRecord :=
  { id := 2, date := "2024-01-02", basePay := 0, bookings := 0, bookingPay := 0,
    inquiryPay := 0, totalEarnings := 200, advanceUsed := 0, remaining := 800,
    notes := "", action := "", createdAt := "t1", isInitialAdvance := false }

/-- Record B of the claim C2 scenario: 2024-01-03, earnings 150, remaining 650. -/
def c2B : DailyRecord :=
  { id := 3, date := "2024-01-03", basePay := 0, bookings := 0, bookingPay := 0,
    inquiryPay := 0, totalEarnings := 150, advanceUsed := 0, remaining := 650,
    notes := "", action := "", createdAt := "t2", isInitialAdvance := false }

/-- Draft dated 2024-01-02 earning 100 (first insert of the C1 scenario). -/
def c1Draft1 : DraftRecord :=
  { date := "2024-01-02", basePay := 0, bookings := 0, bookingPay := 0,
    inquiryPay := 0, totalEarnings := 100, advanceUsed := 0, remaining := 0,
    notes := "", action := "", isInitialAdvance := false }

/-- Draft dated 2024-01-01 earning 50, inserted second, before the first in
date order (the mid-sequence insertion of the C1 scenario). -/
def c1Draft2 : DraftRecord :=
  { date := "2024-01-01", basePay := 0, bookings := 0, bookingPay := 0,
    inquiryPay := 0, totalEarnings := 50, advanceUsed := 0, remaining := 0,
    notes := "", action := "", isInitialAdvance := false }

/-- Store produced by saving `c1Draft1` then `c1Draft2` into an empty store
with default settings: the out-of-order insert keeps `remaining = -100` on
the 2024-01-02 record although its date-order predecessor now ends at
`-50`. -/
def c1Store : List DailyRecord :=
  [c1Draft1.toRecord 1 "t1" (-100), c1Draft2.toRecord 2 "t2" (-50)]

/-- Anchor of the claim C3 counterexample: dated 2024-01-05, amount 1000 —
later than the non-anchor record `c3Prev`. -/
def c3Anchor : DailyRecord :=
  { id := 1, date := "2024-01-05", basePay := 0, bookings := 0, bookingPay := 0,
    inquiryPay := 0, totalEarnings := 0, advanceUsed := 0, remaining := 1000,
    notes := "Initial Advance Amount", action := "Initial Advance",
    createdAt := "t0", isInitialAdvance := true }

/-- Non-anchor record dated 2024-01-02 with remaining 777, strictly before
the C3 draft's date. -/
def c3Prev : DailyRecord :=
  { id := 2, date := "2024-01-02", basePay := 0, bookings := 0, bookingPay := 0,
    inquiryPay := 0, totalEarnings := 0, advanceUsed := 0, remaining := 777,
    notes := "", action := "", createdAt := "t1", isInitialAdvance := false }

/-- Draft dated 2024-01-03 (on/before the C3 anchor's date) earning 100. -/
def c3Draft : DraftRecord :=
  { date := "2024-01-03", basePay := 0, bookings := 0, bookingPay := 0,
    inquiryPay := 0, totalEarnings := 100, advanceUsed := 0, remaining := 0,
    notes := "", action := "", isInitialAdvance := false }

/-- Single consistent record of the claim C6 counterexample store (its
`remaining` agrees with the default-settings chain, so the cascade that
`deleteRecord` runs anyway leaves it unchanged). -/
def c6Rec : DailyRecord :=
  { id := 1, date := "2024-02-01", basePay := 0, bookings := 0, bookingPay := 0,
    inquiryPay := 0, totalEarnings := 5, advanceUsed := 0, remaining := -5,
    notes := "", action := "", createdAt := "t1", isInitialAdvance := false }

end EarningsTracker

namespace EarningsTracker

set_option maxRecDepth 100000

/-! General lemmas about the cascade loop and list utilities. -/

theorem find?_eq_some_of_unique {α : Type} {p : α → Bool} :
    ∀ {l : List α} {a : α}, a ∈ l → p a = true →
      (∀ b ∈ l, p b = true → b = a) → l.find? p = some a := by
  intro l
  induction l with
  | nil => intro a ha; simp at ha
  | cons x xs ih =>
    intro a ha hpa huniq
    by_cases hx : p x = true
    · have hxa : x = a := huniq x (List.mem_cons_self _ _) hx
      rw [List.find?_cons_of_pos _ hx, hxa]
    · have hax : a ≠ x := fun h => hx (h ▸ hpa)
      have ha' : a ∈ xs := by
        rcases List.mem_cons.1 ha with h | h
        · exact absurd h hax
        · exact h
      rw [List.find?_cons_of_neg _ hx]
      exact ih ha' hpa fun b hb hpb => huniq b (List.mem_cons_of_mem _ hb) hpb

theorem findIdx?_some_spec {α : Type} {p : α → Bool} (d : α) :
    ∀ {l : List α} {i : Nat}, l.findIdx? p = some i →
      i < l.length ∧ p (l.getD i d) = true := by
  intro l
  induction l with
  | nil => intro i h; simp [List.findIdx?_nil] at h
  | cons x xs ih =>
    intro i h
    rw [List.findIdx?_cons] at h
    by_cases hp : p x = true
    · rw [if_pos hp] at h
      cases h
      simpa using hp
    · rw [if_neg hp, List.findIdx?_succ] at h
      rcases Option.map_eq_some'.1 h with ⟨j, hj, rfl⟩
      rcases ih hj with ⟨h1, h2⟩
      exact ⟨by simpa using h1, by simpa using h2⟩

theorem forall₂_map_eq {α β γ : Type} {R : α → β → Prop} {f : α → γ} {g : β → γ}
    (hR : ∀ a b, R a b → g b = f a) :
    ∀ {l : List α} {l' : List β}, List.Forall₂ R l l' → l'.map g = l.map f := by
  intro l l' h
  induction h with
  | nil => rfl
  | cons hab _ ih => simp [ih, hR _ _ hab]

theorem forall₂_mem_right {α β : Type} {R : α → β → Prop} :
    ∀ {l : List α} {l' : List β}, List.Forall₂ R l l' →
      ∀ b ∈ l', ∃ a ∈ l, R a b := by
  intro l l' h
  induction h with
  | nil => intro b hb; simp at hb
  | cons hab _ ih =>
    intro b hb
    rcases List.mem_cons.1 hb with rfl | hb'
    · exact ⟨_, List.mem_cons_self _ _, hab⟩
    · rcases ih b hb' with ⟨a, ha, hr⟩
      exact ⟨a, List.mem_cons_of_mem _ ha, hr⟩

theorem cascadeLoop_zero_eq (settings : EarningSettings) (ia : Option DailyRecord) :
    ∀ (rest done : List DailyRecord),
      cascadeLoop settings ia 0 done rest = done ++ cascadeGo settings ia done rest := by
  intro rest
  induction rest with
  | nil => intro done; simp [cascadeLoop, cascadeGo]
  | cons r t ih =>
    intro done
    simp only [cascadeLoop, cascadeGo, Nat.not_lt_zero, if_false]
    rw [ih]
    simp

theorem cascadeStep_anchor (settings : EarningSettings) (ia : Option DailyRecord)
    (done : List DailyRecord) (r : DailyRecord) (h : r.isInitialAdvance = true) :
    cascadeStep settings ia done r = r := by
  simp [cascadeStep, h]

theorem eraseRemaining_cascadeStep (settings : EarningSettings)
    (ia : Option DailyRecord) (done : List DailyRecord) (r : DailyRecord) :
    eraseRemaining (cascadeStep settings ia done r) = eraseRemaining r := by
  unfold cascadeStep
  split
  · rfl
  · rfl

theorem cascadeStepValue_set_remaining (settings : EarningSettings)
    (ia : Option DailyRecord) (done : List DailyRecord) (r : DailyRecord) (q : ℚ) :
    cascadeStepValue settings ia done { r with remaining := q } =
      cascadeStepValue settings ia done r := rfl

theorem cascadeStep_idem (settings : EarningSettings) (ia : Option DailyRecord)
    (done : List DailyRecord) (r : DailyRecord) :
    cascadeStep settings ia done (cascadeStep settings ia done r) =
      cascadeStep settings ia done r := by
  by_cases h : r.isInitialAdvance = true
  · rw [cascadeStep_anchor settings ia done r h, cascadeStep_anchor settings ia done r h]
  · have h' : r.isInitialAdvance = false := by simpa using h
    simp only [cascadeStep, h', Bool.false_eq_true, if_false, if_neg]
    rfl

theorem cascadeGo_idem (settings : EarningSettings) (ia : Option DailyRecord) :
    ∀ (rest done : List DailyRecord),
      cascadeGo settings ia done (cascadeGo settings ia done rest) =
        cascadeGo settings ia done rest := by
  intro rest
  induction rest with
  | nil => intro done; rfl
  | cons r t ih =>
    intro done
    simp only [cascadeGo]
    rw [cascadeStep_idem, ih]

theorem cascadeGo_shape (settings : EarningSettings) (ia : Option DailyRecord) :
    ∀ (rest done : List DailyRecord),
      List.Forall₂
        (fun orig new => eraseRemaining new = eraseRemaining orig ∧
          (orig.isInitialAdvance = true → new = orig))
        rest (cascadeGo settings ia done rest) := by
  intro rest
  induction rest with
  | nil => intro done; simp [cascadeGo]
  | cons r t ih =>
    intro done
    simp only [cascadeGo]
    exact List.Forall₂.cons
      ⟨eraseRemaining_cascadeStep settings ia done r,
       fun h => cascadeStep_anchor settings ia done r h⟩ (ih _)

theorem cascadeGo_map_erase (settings : EarningSettings) (ia : Option DailyRecord)
    (rest done : List DailyRecord) :
    (cascadeGo settings ia done rest).map eraseRemaining =
      rest.map eraseRemaining :=
  forall₂_map_eq (fun _ _ hab => hab.1) (cascadeGo_shape settings ia rest done)

theorem cascadeGo_map_date (settings : EarningSettings) (ia : Option DailyRecord)
    (rest done : List DailyRecord) :
    (cascadeGo settings ia done rest).map (·.date) = rest.map (·.date) := by
  refine forall₂_map_eq ?_ (cascadeGo_shape settings ia rest done)
  intro a b hab
  have := congrArg DailyRecord.date hab.1
  simpa [eraseRemaining] using this

theorem cascadeGo_flag_false (settings : EarningSettings) (ia : Option DailyRecord)
    {rest done : List DailyRecord} (h : ∀ r ∈ rest, r.isInitialAdvance = false) :
    ∀ r ∈ cascadeGo settings ia done rest, r.isInitialAdvance = false := by
  intro r hr
  rcases forall₂_mem_right (cascadeGo_shape settings ia rest done) r hr with ⟨a, ha, hrel⟩
  have hda := congrArg DailyRecord.isInitialAdvance hrel.1
  simp only [eraseRemaining] at hda
  rw [show r.isInitialAdvance = a.isInitialAdvance from hda]
  exact h a ha

theorem pairwise_byDateAsc_of_map_date_eq {l l' : List DailyRecord}
    (h : l'.map (·.date) = l.map (·.date)) (hp : l.Pairwise byDateAsc) :
    l'.Pairwise byDateAsc := by
  have h1 : (l.map (·.date)).Pairwise (fun a b : String => a ≤ b) :=
    (@List.pairwise_map DailyRecord String (fun r => r.date) (fun a b => a ≤ b) l).2 hp
  rw [← h] at h1
  exact (@List.pairwise_map DailyRecord String (fun r => r.date)
    (fun a b => a ≤ b) l').1 h1

theorem cascadeGo_none_eq_chainFrom (settings : EarningSettings) :
    ∀ (rest done : List DailyRecord),
      (∀ p ∈ done, p.isInitialAdvance = false) →
      (∀ r ∈ rest, r.isInitialAdvance = false) →
      cascadeGo settings none done rest = chainFrom (startOf settings done) rest := by
  intro rest
  induction rest with
  | nil => intro done _ _; rfl
  | cons r t ih =>
    intro done hdone hrest
    have hr : r.isInitialAdvance = false := hrest r (List.mem_cons_self _ _)
    have hval : cascadeStepValue settings none done r =
        calculateRemaining (startOf settings done) r.advanceUsed r.totalEarnings := by
      rcases hl : done.getLast? with _ | m
      · have hd : done = [] := by simpa using hl
        subst hd
        simp [cascadeStepValue, iaStart, startOf]
      · have hd : done ≠ [] := by
          intro he
          rw [he] at hl
          simp at hl
        have hne : done.isEmpty = false := by
          simpa [List.isEmpty_iff] using hd
        have hfilter : done.filter
            (fun p => !p.isInitialAdvance || decide (p.date ≤ r.date)) = done :=
          List.filter_eq_self.2 fun p hp => by simp [hdone p hp]
        simp only [cascadeStepValue]
        rw [hne]
        simp only [Bool.false_or, Bool.or_false, Bool.false_eq_true, if_false]
        rw [hfilter, hl]
        simp [startOf, hl]
    have hstep : cascadeStep settings none done r =
        { r with remaining :=
            calculateRemaining (startOf settings done) r.advanceUsed r.totalEarnings } := by
      unfold cascadeStep
      rw [if_neg (by simp [hr]), hval]
    simp only [cascadeGo, chainFrom, hstep]
    refine congrArg _ ?_
    rw [ih]
    · refine congrArg (fun q => chainFrom q t) ?_
      simp [startOf]
    · intro p hp
      rcases List.mem_append.1 hp with hp | hp
      · exact hdone p hp
      · have : p = { r with remaining :=
            calculateRemaining (startOf settings done) r.advanceUsed r.totalEarnings } := by
          simpa using hp
        rw [this]
        exact hr
    · intro x hx
      exact hrest x (List.mem_cons_of_mem _ hx)

theorem foldl_max_keep :
    ∀ (t : List DailyRecord) (m : DailyRecord), (∀ x ∈ t, ¬ m.date < x.date) →
      t.foldl
        (fun acc r =>
          match acc with
          | none => some r
          | some mm => if mm.date < r.date then some r else some mm)
        (some m) = some m := by
  intro t
  induction t with
  | nil => intro m _; rfl
  | cons x xs ih =>
    intro m h
    simp only [List.foldl_cons]
    rw [if_neg (h x (List.mem_cons_self _ _))]
    exact ih m fun y hy => h y (List.mem_cons_of_mem _ hy)

theorem firstMaxDate_of_sorted_desc {l : List DailyRecord}
    (hl : List.Sorted byDateDesc l) : firstMaxDate l = l.head? := by
  cases l with
  | nil => rfl
  | cons r t =>
    have hall : ∀ x ∈ t, ¬ r.date < x.date := by
      intro x hx
      exact not_lt.2 ((List.sorted_cons.1 hl).1 x hx)
    simp only [firstMaxDate, List.foldl_cons]
    exact foldl_max_keep t r hall

theorem forall₂_mem_left {α β : Type} {R : α → β → Prop} :
    ∀ {l : List α} {l' : List β}, List.Forall₂ R l l' →
      ∀ a ∈ l, ∃ b ∈ l', R a b := by
  intro l l' h
  induction h with
  | nil => intro a ha; simp at ha
  | cons hab _ ih =>
    intro a ha
    rcases List.mem_cons.1 ha with rfl | ha'
    · exact ⟨_, List.mem_cons_self _ _, hab⟩
    · rcases ih a ha' with ⟨b, hb, hr⟩
      exact ⟨b, List.mem_cons_of_mem _ hb, hr⟩

/-- The anchor record the from-scratch lookup finds in a cascade output is
the very anchor the cascade was run with, provided the input set contains
that anchor (and no other) — anchors pass through the cascade unchanged. -/
theorem ia_stable (settings : EarningSettings) (effIa : Option DailyRecord)
    (srt : List DailyRecord)
    (hmatch : match effIa with
      | none => ∀ r ∈ srt, r.isInitialAdvance = false
      | some a => a ∈ srt ∧ a.isInitialAdvance = true ∧
          ∀ b ∈ srt, b.isInitialAdvance = true → b = a) :
    getInitialAdvanceRecord (cascadeGo settings effIa [] srt) = effIa := by
  cases effIa with
  | none =>
    have hflags : ∀ r ∈ srt, r.isInitialAdvance = false := hmatch
    show List.find? _ _ = none
    rw [List.find?_eq_none]
    intro x hx
    have hx' := (List.mem_insertionSort _).1 hx
    simp [cascadeGo_flag_false settings none hflags x hx']
  | some a =>
    obtain ⟨hamem, haflag, huniq⟩ := hmatch
    have hamem_out : a ∈ cascadeGo settings (some a) [] srt := by
      rcases forall₂_mem_left (cascadeGo_shape settings (some a) srt []) a hamem
        with ⟨b, hb, hrel⟩
      have hba : b = a := hrel.2 haflag
      rwa [hba] at hb
    refine find?_eq_some_of_unique ((List.mem_insertionSort _).2 hamem_out) haflag ?_
    intro b hb hpb
    have hb' := (List.mem_insertionSort _).1 hb
    rcases forall₂_mem_right (cascadeGo_shape settings (some a) srt []) b hb'
      with ⟨orig, horig, hrel⟩
    have hflageq : b.isInitialAdvance = orig.isInitialAdvance := by
      have := congrArg DailyRecord.isInitialAdvance hrel.1
      simpa [eraseRemaining] using this
    have horigflag : orig.isInitialAdvance = true := by rw [← hflageq]; exact hpb
    have horiga : orig = a := huniq orig horig horigflag
    rw [hrel.2 horigflag, horiga]

/-- A cascade output over a date-sorted input whose effective anchor
matches the set is a fixed point of the full from-scratch recompute. -/
theorem recalc_fixed (settings : EarningSettings) (effIa : Option DailyRecord)
    (srt out : List DailyRecord)
    (hsrt : srt.Pairwise byDateAsc)
    (hmatch : match effIa with
      | none => ∀ r ∈ srt, r.isInitialAdvance = false
      | some a => a ∈ srt ∧ a.isInitialAdvance = true ∧
          ∀ b ∈ srt, b.isInitialAdvance = true → b = a)
    (hout : cascadeGo settings effIa [] srt = out) :
    recalcAll settings out = out := by
  have hsorted_out : out.Pairwise byDateAsc := by
    rw [← hout]
    exact pairwise_byDateAsc_of_map_date_eq (cascadeGo_map_date settings effIa srt []) hsrt
  have hins : out.insertionSort byDateAsc = out :=
    List.Sorted.insertionSort_eq hsorted_out
  have hia2 : getInitialAdvanceRecord out = effIa := by
    rw [← hout]
    exact ia_stable settings effIa srt hmatch
  show cascadeLoop settings (getInitialAdvanceRecord out) 0 [] (out.insertionSort byDateAsc) = out
  rw [hins, hia2, cascadeLoop_zero_eq, List.nil_append, ← hout, cascadeGo_idem]

theorem getD_decomp {α : Type} :
    ∀ (l : List α) (i : Nat) (d : α), i < l.length →
      l = l.take i ++ l.getD i d :: l.drop (i + 1) := by
  intro l
  induction l with
  | nil => intro i d h; simp at h
  | cons x xs ih =>
    intro i d h
    cases i with
    | zero => simp
    | succ n =>
      have h' : n < xs.length := by simpa using h
      calc x :: xs = x :: (xs.take n ++ xs.getD n d :: xs.drop (n + 1)) := by
            rw [← ih n d h']
        _ = (x :: xs).take (n + 1) ++ (x :: xs).getD (n + 1) d ::
              (x :: xs).drop (n + 2) := by simp

/-! Claim theorems. -/

/-- Claim C4: `calculateRemaining` obeys the two-branch balance-update
rule for all rational inputs, including negative previous balances: with
`advanceUsedToday = 0` the result is `R - E`, otherwise `R - A + E`. -/
theorem claim4_calculateRemaining_law (R A E : ℚ) :
    (A = 0 → calculateRemaining R A E = R - E) ∧
    (A ≠ 0 → calculateRemaining R A E = R - A + E) := by
  constructor <;> intro h <;> simp [calculateRemaining, h]

/-- Witness for claim C4 at concrete inputs, one per branch. -/
theorem claim4_witness :
    calculateRemaining (-5) 0 7 = -5 - 7 ∧ calculateRemaining 10 2 3 = 10 - 2 + 3 :=
  ⟨(claim4_calculateRemaining_law (-5) 0 7).1 rfl,
   (claim4_calculateRemaining_law 10 2 3).2 (by norm_num)⟩

/-- Claim C8: `calculateBookingPay` returns 0 for every negative bookings
value and exact (unrounded) `b * r` for every nonnegative, possibly
fractional, bookings value. -/
theorem claim8_bookingPay_law (b r : ℚ) :
    (b < 0 → calculateBookingPay b r = 0) ∧
    (0 ≤ b → calculateBookingPay b r = b * r) := by
  constructor <;> intro h
  · simp [calculateBookingPay, h]
  · simp [calculateBookingPay, not_lt.mpr h]

/-- Witness for claim C8: a negative count and a fractional count. -/
theorem claim8_witness :
    calculateBookingPay (-3) 7 = 0 ∧ calculateBookingPay (1 / 2) 50 = 1 / 2 * 50 :=
  ⟨(claim8_bookingPay_law (-3) 7).1 (by norm_num),
   (claim8_bookingPay_law (1 / 2) 50).2 (by norm_num)⟩

/-- Claim C10: `getSettings` returns the fixed defaults
`basePay = 200, perBooking = 50, advanceBalance = 0` when nothing is
stored or the stored value fails to parse, so a fresh store's
starting-balance fallback uses 0. -/
theorem claim10_default_settings :
    ∀ stored, stored = none ∨ stored = some none →
      getSettings stored = { basePay := 200, perBooking := 50, advanceBalance := 0 } ∧
      ∀ draft newId now,
        (saveRecord (getSettings stored) draft newId now []).1.remaining =
          calculateRemaining 0 draft.advanceUsed draft.totalEarnings := by
  rintro stored (rfl | rfl) <;> exact ⟨rfl, fun _ _ _ => rfl⟩

/-- Witness for claim C10 on an unset store and a parse-failure store. -/
theorem claim10_witness :
    getSettings none = { basePay := 200, perBooking := 50, advanceBalance := 0 } ∧
    (saveRecord (getSettings (some none)) c1Draft1 1 "t1" []).1.remaining =
      calculateRemaining 0 c1Draft1.advanceUsed c1Draft1.totalEarnings :=
  ⟨(claim10_default_settings none (Or.inl rfl)).1,
   (claim10_default_settings (some none) (Or.inr rfl)).2 c1Draft1 1 "t1"⟩

/-- Claim C5: with an anchor already stored, `createInitialAdvanceRecord`
fails with the anchor-exists error for any amount and date (and, throwing
before any write, leaves the stored set unchanged); with no anchor it
creates a record whose `remaining` is the amount itself and whose earning
fields are all zero. -/
theorem claim5_anchor_exclusivity (amount : ℚ) (date : String) (newId : Nat)
    (now : String) (stored : List DailyRecord) :
    ((∃ a ∈ stored, a.isInitialAdvance = true) →
      createInitialAdvanceRecord amount date newId now stored =
        .error .anchorAlreadyExists) ∧
    ((∀ a ∈ stored, a.isInitialAdvance = false) →
      ∃ r, createInitialAdvanceRecord amount date newId now stored =
          .ok (r, listRecords stored ++ [r]) ∧
        r.remaining = amount ∧ r.basePay = 0 ∧ r.bookings = 0 ∧ r.bookingPay = 0 ∧
        r.inquiryPay = 0 ∧ r.totalEarnings = 0 ∧ r.advanceUsed = 0 ∧
        r.isInitialAdvance = true) := by
  constructor
  · rintro ⟨a, ha, hflag⟩
    have htrue : (listRecords stored).any (·.isInitialAdvance) = true :=
      List.any_eq_true.2 ⟨a, (List.mem_insertionSort _).2 ha, hflag⟩
    simp [createInitialAdvanceRecord, htrue]
  · intro h
    have hfalse : (listRecords stored).any (·.isInitialAdvance) = false := by
      rw [List.any_eq_false]
      intro a ha
      simp [h a ((List.mem_insertionSort _).1 ha)]
    refine ⟨{ id := newId, date := date, basePay := 0, bookings := 0,
              bookingPay := 0, inquiryPay := 0, totalEarnings := 0,
              advanceUsed := 0, remaining := amount,
              notes := "Initial Advance Amount", action := "Initial Advance",
              createdAt := now, isInitialAdvance := true },
      ?_, rfl, rfl, rfl, rfl, rfl, rfl, rfl, rfl⟩
    simp [createInitialAdvanceRecord, hfalse]

/-- Witness for claim C5: the error branch on a store holding `c2Anchor`
and the success branch on an empty store. -/
theorem claim5_witness :
    createInitialAdvanceRecord 500 "2024-03-01" 7 "t9" [c2Anchor] =
        .error .anchorAlreadyExists ∧
    ∃ r, createInitialAdvanceRecord 500 "2024-03-01" 7 "t9" [] =
        .ok (r, listRecords [] ++ [r]) ∧
      r.remaining = 500 ∧ r.basePay = 0 ∧ r.bookings = 0 ∧ r.bookingPay = 0 ∧
      r.inquiryPay = 0 ∧ r.totalEarnings = 0 ∧ r.advanceUsed = 0 ∧
      r.isInitialAdvance = true :=
  ⟨(claim5_anchor_exclusivity 500 "2024-03-01" 7 "t9" [c2Anchor]).1
      (by exact ⟨c2Anchor, by simp, rfl⟩),
   (claim5_anchor_exclusivity 500 "2024-03-01" 7 "t9" []).2 (by simp)⟩

/-- Claim C2: on the concrete scenario (anchor 2024-01-01 amount 1000,
record A 2024-01-02 earnings 200 remaining 800, record B 2024-01-03
earnings 150 remaining 650), editing A's `totalEarnings` to 300 cascades to
`A.remaining = 700`, `B.remaining = 550`, and then deleting A reattaches B
to the anchor: `B.remaining = 850`. -/
theorem claim2_cascade_scenario :
    updateRecord DEFAULT_SETTINGS 2 { totalEarnings := some 300 }
        [c2Anchor, c2A, c2B] =
      .ok [c2Anchor, { c2A with totalEarnings := 300, remaining := 700 },
           { c2B with remaining := 550 }] ∧
    deleteRecord DEFAULT_SETTINGS 2
        [c2Anchor, { c2A with totalEarnings := 300, remaining := 700 },
         { c2B with remaining := 550 }] =
      .ok [c2Anchor, { c2B with remaining := 850 }] := by
  with_unfolding_all decide

/-- Claim C1 counterexample: saving a record dated 2024-01-02 into an
empty store and then one dated 2024-01-01 yields a store (`c1Store`) whose
stored `remaining` values are NOT reproduced by a from-scratch recompute —
neither by the specification-worded pass (`specRecompute`) nor by the
source's own full cascade (`recalcAll`) — because `saveRecord` never
cascades over later records. -/
theorem claim1_counterexample :
    (saveRecord DEFAULT_SETTINGS c1Draft2 2 "t2"
        ((saveRecord DEFAULT_SETTINGS c1Draft1 1 "t1" []).2)).2 = c1Store ∧
    specRecompute DEFAULT_SETTINGS c1Store ≠ c1Store ∧
    recalcAll DEFAULT_SETTINGS c1Store ≠ c1Store := by
  with_unfolding_all decide

/-- Claim C3 counterexample: with the anchor dated 2024-01-05 and a
non-anchor record dated 2024-01-02 (remaining 777) in the store, saving a
draft dated 2024-01-03 — on/before the anchor's date — takes the earlier
record's 777 as starting balance (remaining 677), not the anchor's 1000 as
the spec's rule 1 dictates (which would give 900). -/
theorem claim3_counterexample :
    (saveRecord DEFAULT_SETTINGS c3Draft 3 "t3" [c3Anchor, c3Prev]).1.remaining = 677 ∧
    calculateRemaining
        (specResolveStart DEFAULT_SETTINGS [c3Anchor, c3Prev] c3Draft.date)
        c3Draft.advanceUsed c3Draft.totalEarnings = 900 ∧
    (677 : ℚ) ≠ 900 := by
  with_unfolding_all decide

/-- Claim C3 (amended): `saveRecord` stamps
`remaining = balanceDelta(start, draft.advanceUsed, draft.totalEarnings)`
where `start` is resolved as follows: with an anchor present, the
`remaining` of the strictly earlier non-anchor record with the greatest
date (ties going to the record listed first in the date-descending
listing, i.e. the earliest-stored one — not the most recently inserted),
and the anchor's `remaining` only when no such record exists, regardless
of how the draft's date compares to the anchor's; with no anchor, the
greatest-date strictly earlier record, else `Settings.advanceBalance`.
It appends the new record to the date-descending listing and persists. -/
theorem claim3_amended_save_resolution (settings : EarningSettings)
    (draft : DraftRecord) (newId : Nat) (now : String) (stored : List DailyRecord) :
    (saveRecord settings draft newId now stored).1.remaining =
      calculateRemaining (codeResolveStart settings stored draft.date)
        draft.advanceUsed draft.totalEarnings ∧
    (saveRecord settings draft newId now stored).2 =
      listRecords stored ++ [(saveRecord settings draft newId now stored).1] := by
  constructor
  · cases hia : (listRecords stored).find? (·.isInitialAdvance) with
    | none =>
      have hsorted : List.Sorted byDateDesc ((listRecords stored).filter
          (fun r => decide (r.date < draft.date))) :=
        (List.sorted_insertionSort byDateDesc stored).filter _
      simp only [saveRecord, codeResolveStart, getInitialAdvanceRecord, hia]
      rw [hsorted.insertionSort_eq, firstMaxDate_of_sorted_desc hsorted]
      rfl
    | some ia =>
      have hsorted : List.Sorted byDateDesc ((listRecords stored).filter
          (fun r => decide (r.date < draft.date) && !r.isInitialAdvance)) :=
        (List.sorted_insertionSort byDateDesc stored).filter _
      simp only [saveRecord, codeResolveStart, getInitialAdvanceRecord, hia]
      rw [hsorted.insertionSort_eq, firstMaxDate_of_sorted_desc hsorted]
      rfl
  · rfl

/-- Claim C6 (amended): `deleteRecord` never reports a missing id — with an
id absent from the store it succeeds, keeping every record with its id,
date and all non-`remaining` fields unchanged (re-sorted date-ascending)
while re-running the full cascade recompute of `remaining` and persisting
the result. -/
theorem claim6_amended_delete_absent (settings : EarningSettings) (id : Nat)
    (stored : List DailyRecord) (habsent : ∀ r ∈ stored, r.id ≠ id) :
    ∃ out, deleteRecord settings id stored = .ok out ∧
      out.map eraseRemaining =
        ((listRecords stored).insertionSort byDateAsc).map eraseRemaining := by
  have hfind : (listRecords stored).find? (fun r => r.id == id) = none := by
    rw [List.find?_eq_none]
    intro x hx
    simp [habsent x ((List.mem_insertionSort _).1 hx)]
  have hfilter : (listRecords stored).filter (fun r => !(r.id == id)) =
      listRecords stored := by
    rw [List.filter_eq_self]
    intro x hx
    simp [habsent x ((List.mem_insertionSort _).1 hx)]
  refine ⟨cascadeGo settings (getInitialAdvanceRecord stored) []
      ((listRecords stored).insertionSort byDateAsc), ?_, ?_⟩
  · simp only [deleteRecord, hfind, hfilter, Option.map_none', Option.getD_none,
      Bool.false_eq_true, if_false]
    rw [cascadeLoop_zero_eq]
    simp
  · rw [cascadeGo_map_erase]

/-- Claim C7: deleting the anchor record (unique anchor, unique ids)
removes it and recomputes every remaining non-anchor record forward with
`Settings.advanceBalance` as the starting balance, chaining each record
from its predecessor's new remaining, in date-ascending order. -/
theorem claim7_anchor_delete_fallback (settings : EarningSettings)
    (stored : List DailyRecord) (a : DailyRecord)
    (hmem : a ∈ stored) (hflag : a.isInitialAdvance = true)
    (huniq : ∀ b ∈ stored, b.isInitialAdvance = true → b = a)
    (hids : ∀ b ∈ stored, b.id = a.id → b = a) :
    ∃ base, deleteRecord settings a.id stored =
        .ok (chainFrom settings.advanceBalance base) ∧
      base.Perm (stored.filter (fun r => !(r.id == a.id))) ∧
      List.Sorted byDateAsc base ∧
      ∀ r ∈ base, r.isInitialAdvance = false := by
  have hfind : (listRecords stored).find? (fun r => r.id == a.id) = some a := by
    apply find?_eq_some_of_unique
    · exact (List.mem_insertionSort _).2 hmem
    · simp
    · intro b hb hpb
      exact hids b ((List.mem_insertionSort _).1 hb) (by simpa using hpb)
  have hnonanchor : ∀ r ∈ (((listRecords stored).filter
      (fun r => !(r.id == a.id))).insertionSort byDateAsc),
      r.isInitialAdvance = false := by
    intro r hr
    have hr' := (List.mem_insertionSort _).1 hr
    rcases List.mem_filter.1 hr' with ⟨hrmem, hrid⟩
    by_cases hf : r.isInitialAdvance = true
    · exfalso
      have hra := huniq r ((List.mem_insertionSort _).1 hrmem) hf
      subst hra
      simp at hrid
    · simpa using hf
  refine ⟨((listRecords stored).filter
      (fun r => !(r.id == a.id))).insertionSort byDateAsc, ?_, ?_, ?_, hnonanchor⟩
  · simp only [deleteRecord, hfind, Option.map_some', Option.getD_some, hflag,
      if_true]
    rw [cascadeLoop_zero_eq]
    rw [cascadeGo_none_eq_chainFrom settings _ [] (by intro p hp; simp at hp)
      hnonanchor]
    rfl
  · exact (List.perm_insertionSort _ _).trans
      ((List.perm_insertionSort byDateDesc stored).filter _)
  · exact List.sorted_insertionSort byDateAsc _

/-- Witness for the amended claim C6 at the concrete store `[c6Rec]` and
absent id 99. -/
theorem claim6_amended_witness :
    ∃ out, deleteRecord DEFAULT_SETTINGS 99 [c6Rec] = .ok out ∧
      out.map eraseRemaining =
        ((listRecords [c6Rec]).insertionSort byDateAsc).map eraseRemaining :=
  claim6_amended_delete_absent DEFAULT_SETTINGS 99 [c6Rec] (by decide)

/-- Witness for claim C7: deleting the anchor of the C2 store falls back to
the default advance balance chain. -/
theorem claim7_witness :
    ∃ base, deleteRecord DEFAULT_SETTINGS c2Anchor.id [c2Anchor, c2A, c2B] =
        .ok (chainFrom DEFAULT_SETTINGS.advanceBalance base) ∧
      base.Perm ([c2Anchor, c2A, c2B].filter (fun r => !(r.id == c2Anchor.id))) ∧
      List.Sorted byDateAsc base ∧
      ∀ r ∈ base, r.isInitialAdvance = false :=
  claim7_anchor_delete_fallback DEFAULT_SETTINGS [c2Anchor, c2A, c2B] c2Anchor
    (by with_unfolding_all decide) rfl (by with_unfolding_all decide)
    (by with_unfolding_all decide)

/-- Claim C6 counterexample: deleting the absent id 99 from the one-record
store `[c6Rec]` does not fail with any error — it succeeds and persists
the store (here unchanged, as `c6Rec` is consistent with the default
chain). -/
theorem claim6_counterexample :
    c6Rec.id = 1 ∧ (1 : Nat) ≠ 99 ∧
    deleteRecord DEFAULT_SETTINGS 99 [c6Rec] = .ok [c6Rec] := by
  with_unfolding_all decide

/-- Claim C1 (amended): the convergence invariant holds after
`deleteRecord` — for every store with unique ids and at most one anchor
record, the record set `deleteRecord` persists is a fixed point of the
full from-scratch recompute (`recalcAll`: one pass of the code's cascade
resolution over the date-ascending set, starting balances resolved against
the anchor found in the set).  It does not hold after every mutating
operation: `saveRecord` and `createInitialAdvanceRecord` never cascade
(see the counterexample) and `updateRecord` recomputes only from the
edited record's position onward. -/
theorem claim1_amended_delete_converges (settings : EarningSettings) (id : Nat)
    (stored : List DailyRecord)
    (hnd : (stored.map (·.id)).Nodup)
    (hanch : ∀ a ∈ stored, ∀ b ∈ stored, a.isInitialAdvance = true →
      b.isInitialAdvance = true → a = b)
    (out : List DailyRecord) (hdel : deleteRecord settings id stored = .ok out) :
    recalcAll settings out = out := by
  have hndR : ((listRecords stored).map (·.id)).Nodup := by
    have hperm : List.Perm ((listRecords stored).map (·.id)) (stored.map (·.id)) :=
      (List.perm_insertionSort byDateDesc stored).map _
    exact hperm.nodup_iff.2 hnd
  have hinjR := List.inj_on_of_nodup_map hndR
  have hanchR : ∀ x ∈ listRecords stored, ∀ y ∈ listRecords stored,
      x.isInitialAdvance = true → y.isInitialAdvance = true → x = y := by
    intro x hx y hy hxf hyf
    exact hanch x ((List.mem_insertionSort _).1 hx) y
      ((List.mem_insertionSort _).1 hy) hxf hyf
  simp only [deleteRecord, Except.ok.injEq] at hdel
  rw [cascadeLoop_zero_eq, List.nil_append] at hdel
  cases hdRec : (listRecords stored).find? (fun r => r.id == id) with
  | none =>
    rw [hdRec] at hdel
    simp only [Option.map_none', Option.getD_none, Bool.false_eq_true,
      if_false] at hdel
    have habsent := List.find?_eq_none.1 hdRec
    have hfilter : (listRecords stored).filter (fun r => !(r.id == id)) =
        listRecords stored := by
      rw [List.filter_eq_self]
      intro x hx
      simpa using habsent x hx
    rw [hfilter] at hdel
    cases hia : getInitialAdvanceRecord stored with
    | none =>
      rw [hia] at hdel
      have hnoanchor : ∀ r ∈ (listRecords stored).insertionSort byDateAsc,
          r.isInitialAdvance = false := by
        intro r hr
        have hrR := (List.mem_insertionSort _).1 hr
        have := List.find?_eq_none.1 hia r hrR
        simpa using this
      exact recalc_fixed settings none _ out
        (List.sorted_insertionSort byDateAsc _) hnoanchor hdel
    | some a =>
      rw [hia] at hdel
      have haR : a ∈ listRecords stored := List.mem_of_find?_eq_some hia
      have haflag : a.isInitialAdvance = true := List.find?_some hia
      have hasrt : a ∈ (listRecords stored).insertionSort byDateAsc :=
        (List.mem_insertionSort _).2 haR
      have huniq : ∀ b ∈ (listRecords stored).insertionSort byDateAsc,
          b.isInitialAdvance = true → b = a := by
        intro b hb hbf
        exact hanchR b ((List.mem_insertionSort _).1 hb) a haR hbf haflag
      exact recalc_fixed settings (some a) _ out
        (List.sorted_insertionSort byDateAsc _) ⟨hasrt, haflag, huniq⟩ hdel
  | some d =>
    rw [hdRec] at hdel
    simp only [Option.map_some', Option.getD_some] at hdel
    have hdR : d ∈ listRecords stored := List.mem_of_find?_eq_some hdRec
    have hdid : d.id = id := by simpa using List.find?_some hdRec
    cases hdf : d.isInitialAdvance with
    | true =>
      rw [if_pos hdf] at hdel
      have hnoanchor : ∀ r ∈ ((listRecords stored).filter
          (fun r => !(r.id == id))).insertionSort byDateAsc,
          r.isInitialAdvance = false := by
        intro r hr
        rcases List.mem_filter.1 ((List.mem_insertionSort _).1 hr) with ⟨hrR, hrid⟩
        by_cases hf : r.isInitialAdvance = true
        · exfalso
          have hrd : r = d := hanchR r hrR d hdR hf hdf
          rw [hrd] at hrid
          simp [hdid] at hrid
        · simpa using hf
      exact recalc_fixed settings none _ out
        (List.sorted_insertionSort byDateAsc _) hnoanchor hdel
    | false =>
      rw [if_neg (by simp [hdf])] at hdel
      cases hia : getInitialAdvanceRecord stored with
      | none =>
        rw [hia] at hdel
        have hnoanchor : ∀ r ∈ ((listRecords stored).filter
            (fun r => !(r.id == id))).insertionSort byDateAsc,
            r.isInitialAdvance = false := by
          intro r hr
          rcases List.mem_filter.1 ((List.mem_insertionSort _).1 hr) with ⟨hrR, _⟩
          have := List.find?_eq_none.1 hia r hrR
          simpa using this
        exact recalc_fixed settings none _ out
          (List.sorted_insertionSort byDateAsc _) hnoanchor hdel
      | some a =>
        rw [hia] at hdel
        have haR : a ∈ listRecords stored := List.mem_of_find?_eq_some hia
        have haflag : a.isInitialAdvance = true := List.find?_some hia
        have haid : a.id ≠ id := by
          intro he
          have had : a = d := hinjR haR hdR (by rw [he, hdid])
          rw [had, hdf] at haflag
          exact Bool.false_ne_true haflag
        have hafilter : a ∈ (listRecords stored).filter
            (fun r => !(r.id == id)) :=
          List.mem_filter.2 ⟨haR, by simp [haid]⟩
        have hasrt : a ∈ ((listRecords stored).filter
            (fun r => !(r.id == id))).insertionSort byDateAsc :=
          (List.mem_insertionSort _).2 hafilter
        have huniq : ∀ b ∈ ((listRecords stored).filter
            (fun r => !(r.id == id))).insertionSort byDateAsc,
            b.isInitialAdvance = true → b = a := by
          intro b hb hbf
          rcases List.mem_filter.1 ((List.mem_insertionSort _).1 hb) with ⟨hbR, _⟩
          exact hanchR b hbR a haR hbf haflag
        exact recalc_fixed settings (some a) _ out
          (List.sorted_insertionSort byDateAsc _) ⟨hasrt, haflag, huniq⟩ hdel

/-- Claim C9: updating a record with a patch carrying only `notes` and/or
`action` (no financial key present) triggers no cascade: every record's
`remaining` is unchanged, the patched record changes only in `notes` and
`action`, and every other record is entirely unchanged (records addressed
by id through `getRecord`; ids assumed unique). -/
theorem claim9_notes_patch_frame (settings : EarningSettings) (id : Nat)
    (noteVal actionVal : Option String) (stored : List DailyRecord)
    (hnd : (stored.map (·.id)).Nodup)
    (target : DailyRecord) (htmem : target ∈ stored) (htid : target.id = id) :
    ∃ out, updateRecord settings id
        { notes := noteVal, action := actionVal } stored = .ok out ∧
      getRecord id out = some { target with
        notes := noteVal.getD target.notes,
        action := actionVal.getD target.action } ∧
      (∀ rid, rid ≠ id → getRecord rid out = getRecord rid stored) ∧
      (∀ rid, (getRecord rid out).map (·.remaining) =
        (getRecord rid stored).map (·.remaining)) := by
  have hndR : ((listRecords stored).map (·.id)).Nodup := by
    have hperm : List.Perm ((listRecords stored).map (·.id)) (stored.map (·.id)) :=
      (List.perm_insertionSort byDateDesc stored).map _
    exact hperm.nodup_iff.2 hnd
  have hinjR := List.inj_on_of_nodup_map hndR
  have htmemR : target ∈ listRecords stored := (List.mem_insertionSort _).2 htmem
  have hexists : ((listRecords stored).findIdx? (fun r => r.id == id)).isSome = true := by
    rw [List.findIdx?_isSome, List.any_eq_true]
    exact ⟨target, htmemR, by simp [htid]⟩
  obtain ⟨index, hidx⟩ := Option.isSome_iff_exists.1 hexists
  obtain ⟨hlt, hp⟩ := findIdx?_some_spec default hidx
  have hold_id : ((listRecords stored).getD index default).id = id := by simpa using hp
  have hold_mem : (listRecords stored).getD index default ∈ listRecords stored := by
    rw [List.getD_eq_getElem _ _ hlt]
    exact List.getElem_mem hlt
  have hold_target : (listRecords stored).getD index default = target :=
    hinjR hold_mem htmemR (by rw [hold_id, htid])
  have hupd_id : (applyPatch ((listRecords stored).getD index default)
      { notes := noteVal, action := actionVal }).id = id := hold_id
  have hupd_rem : (applyPatch ((listRecords stored).getD index default)
      { notes := noteVal, action := actionVal }).remaining =
      ((listRecords stored).getD index default).remaining := rfl
  have hrun : updateRecord settings id { notes := noteVal, action := actionVal } stored =
      .ok ((listRecords stored).set index
        (applyPatch ((listRecords stored).getD index default)
          { notes := noteVal, action := actionVal })) := by
    simp only [updateRecord, hidx]
    rfl
  have hdec : listRecords stored =
      (listRecords stored).take index ++
        ((listRecords stored).getD index default) ::
          (listRecords stored).drop (index + 1) :=
    getD_decomp _ index default hlt
  have hout : (listRecords stored).set index
      (applyPatch ((listRecords stored).getD index default)
        { notes := noteVal, action := actionVal }) =
      (listRecords stored).take index ++
        (applyPatch ((listRecords stored).getD index default)
          { notes := noteVal, action := actionVal }) ::
          (listRecords stored).drop (index + 1) :=
    List.set_eq_take_cons_drop _ hlt
  have hnd2 : ((((listRecords stored).take index).map (·.id)) ++
      ((listRecords stored).getD index default).id ::
        (((listRecords stored).drop (index + 1)).map (·.id))).Nodup := by
    have hmapeq : ((((listRecords stored).take index).map (·.id)) ++
        ((listRecords stored).getD index default).id ::
          (((listRecords stored).drop (index + 1)).map (·.id))) =
        (listRecords stored).map (·.id) := by
      conv_rhs => rw [hdec]
      simp
    rw [hmapeq]
    exact hndR
  rcases List.nodup_append.1 hnd2 with ⟨hndT, hndOD, hdisj⟩
  have hTnotid : ∀ b ∈ (listRecords stored).take index, b.id ≠ id := by
    intro b hb hbid
    have hb' : b.id = ((listRecords stored).getD index default).id := by
      rw [hbid, hold_id]
    apply hdisj (List.mem_map_of_mem (fun r => r.id) hb)
    rw [hb']
    exact List.mem_cons_self _ _
  have hDnotid : ∀ b ∈ (listRecords stored).drop (index + 1), b.id ≠ id := by
    intro b hb hbid
    rcases List.nodup_cons.1 hndOD with ⟨hnotin, _⟩
    apply hnotin
    have hb' : b.id = ((listRecords stored).getD index default).id := by
      rw [hbid, hold_id]
    rw [← hb']
    exact List.mem_map_of_mem (fun r => r.id) hb
  have hout_elems : ∀ b ∈ listRecords ((listRecords stored).set index
      (applyPatch ((listRecords stored).getD index default)
        { notes := noteVal, action := actionVal })),
      b ∈ (listRecords stored).take index ∨
        b = applyPatch ((listRecords stored).getD index default)
          { notes := noteVal, action := actionVal } ∨
        b ∈ (listRecords stored).drop (index + 1) := by
    intro b hb
    have hb' := (List.mem_insertionSort _).1 hb
    rw [hout] at hb'
    simpa using hb'
  have hupd_mem : applyPatch ((listRecords stored).getD index default)
      { notes := noteVal, action := actionVal } ∈
      listRecords ((listRecords stored).set index
        (applyPatch ((listRecords stored).getD index default)
          { notes := noteVal, action := actionVal })) := by
    apply (List.mem_insertionSort _).2
    rw [hout]
    exact List.mem_append_right _ (List.mem_cons_self _ _)
  have hfind_id_out : getRecord id ((listRecords stored).set index
      (applyPatch ((listRecords stored).getD index default)
        { notes := noteVal, action := actionVal })) =
      some (applyPatch ((listRecords stored).getD index default)
        { notes := noteVal, action := actionVal }) := by
    refine find?_eq_some_of_unique hupd_mem (beq_iff_eq.mpr hupd_id) ?_
    intro b hb hpb
    have hbid : b.id = id := by simpa using hpb
    rcases hout_elems b hb with hbT | hbu | hbD
    · exact absurd hbid (hTnotid b hbT)
    · exact hbu
    · exact absurd hbid (hDnotid b hbD)
  have hfind_id_stored : getRecord id stored =
      some ((listRecords stored).getD index default) := by
    refine find?_eq_some_of_unique hold_mem (beq_iff_eq.mpr hold_id) ?_
    intro b hb hpb
    have hbid : b.id = id := by simpa using hpb
    exact hinjR hb hold_mem (by rw [hbid, hold_id])
  have hframe : ∀ rid, rid ≠ id →
      getRecord rid ((listRecords stored).set index
        (applyPatch ((listRecords stored).getD index default)
          { notes := noteVal, action := actionVal })) = getRecord rid stored := by
    intro rid hrid
    cases hfind : getRecord rid stored with
    | none =>
      have hnone : ∀ x ∈ listRecords stored, ¬(x.id == rid) = true :=
        List.find?_eq_none.1 hfind
      show List.find? _ _ = none
      rw [List.find?_eq_none]
      intro x hx
      rcases hout_elems x hx with hxT | hxu | hxD
      · exact hnone x (List.take_subset _ _ hxT)
      · rw [hxu]
        simp only [hupd_id, beq_iff_eq]
        exact fun hh => hrid hh.symm
      · exact hnone x (List.drop_subset _ _ hxD)
    | some x =>
      have hxmem : x ∈ listRecords stored := List.mem_of_find?_eq_some hfind
      have hxid : x.id = rid := by
        have := List.find?_some hfind
        simpa using this
      have hxsplit : x ∈ (listRecords stored).take index ∨
          x = (listRecords stored).getD index default ∨
          x ∈ (listRecords stored).drop (index + 1) := by
        rw [hdec] at hxmem
        simpa using hxmem
      have hx_not_old : ¬ x = (listRecords stored).getD index default := by
        intro he
        apply hrid
        rw [← hxid, he, hold_id]
      apply find?_eq_some_of_unique
      · apply (List.mem_insertionSort _).2
        rw [hout]
        rcases hxsplit with hxT | hxo | hxD
        · exact List.mem_append_left _ hxT
        · exact absurd hxo hx_not_old
        · exact List.mem_append_right _ (List.mem_cons_of_mem _ hxD)
      · simp [hxid]
      · intro b hb hpb
        have hbid : b.id = rid := by simpa using hpb
        rcases hout_elems b hb with hbT | hbu | hbD
        · exact hinjR (List.take_subset _ _ hbT) hxmem (by rw [hbid, hxid])
        · exfalso
          apply hrid
          rw [← hbid, hbu, hupd_id]
        · exact hinjR (List.drop_subset _ _ hbD) hxmem (by rw [hbid, hxid])
  have hrem : ∀ rid, (getRecord rid ((listRecords stored).set index
      (applyPatch ((listRecords stored).getD index default)
        { notes := noteVal, action := actionVal }))).map (·.remaining) =
      (getRecord rid stored).map (·.remaining) := by
    intro rid
    by_cases hrid : rid = id
    · subst hrid
      rw [hfind_id_out, hfind_id_stored]
      exact congrArg some hupd_rem
    · rw [hframe rid hrid]
  refine ⟨_, hrun, ?_, hframe, hrem⟩
  rw [hfind_id_out]
  exact congrArg some (by rw [hold_target]; rfl)

/-- Witness for the amended claim C1: deleting record 2 from the C2 store
yields a store that the full recompute reproduces exactly. -/
theorem claim1_amended_witness :
    recalcAll DEFAULT_SETTINGS [c2Anchor, { c2B with remaining := 850 }] =
      [c2Anchor, { c2B with remaining := 850 }] :=
  claim1_amended_delete_converges DEFAULT_SETTINGS 2 [c2Anchor, c2A, c2B]
    (by decide) (by with_unfolding_all decide) _ (by with_unfolding_all decide)

/-- Witness for claim C9: patching only `notes` on record 3 of the C2 store
leaves every `remaining` and every other record unchanged. -/
theorem claim9_witness :
    ∃ out, updateRecord DEFAULT_SETTINGS 3
        { notes := some "checked", action := none } [c2Anchor, c2A, c2B] =
        .ok out ∧
      getRecord 3 out = some { c2B with
        notes := (some "checked").getD c2B.notes,
        action := (none : Option String).getD c2B.action } ∧
      (∀ rid, rid ≠ 3 → getRecord rid out = getRecord rid [c2Anchor, c2A, c2B]) ∧
      (∀ rid, (getRecord rid out).map (·.remaining) =
        (getRecord rid [c2Anchor, c2A, c2B]).map (·.remaining)) :=
  claim9_notes_patch_frame DEFAULT_SETTINGS 3 (some "checked") none
    [c2Anchor, c2A, c2B] (by decide) c2B
    (List.mem_cons_of_mem _ (List.mem_cons_of_mem _ (List.mem_cons_self _ _))) rfl

end EarningsTracker
